import Mathlib

/-!
# Verification of the documentation cache and retrieval engine

A shallow embedding, in Lean 4, of the documentation subsystem of the
`agentic-tools-mcp` repository:

* `src/features/documentation/utils/version-utils.ts` — the version resolver
  (`parseVersion`, `isVersionCompatible`, `compareVersions`, `findBestVersion`);
* `src/features/documentation/storage/doc-file-storage.ts` — the single-tier
  document store (`DocFileStorage`), modelled as a pure state machine over a
  `DocStore` record that stands for the two on-disk hierarchies
  (`documents/<safeLib>/<safeVersion>.json` and `libraries/<safeName>.json`);
* `src/features/documentation/storage/dual-storage.ts` — the dual-tier cache
  coordinator (`DualDocStorage`);
* `src/features/documentation/search/text-search.ts` — the relevance search
  engine (`DocumentSearchEngine`);
* `src/tools/documentation/docs.ts` — the `remove_docs` tool handler.

Modelling conventions:

* JavaScript numbers that hold scores are modelled as rationals (`ℚ`);
  version components are modelled as `Nat`.
* Asynchronous code is sequential in the source (each `await` joins before the
  next step), so it is modelled by explicit state passing.
* Filesystem reads in the source swallow every error and report "not found";
  the model makes them total.  Filesystem writes can reject; fallible write
  paths are modelled in `Except`, with a boolean oracle saying whether the
  underlying `fs` write rejects.
* `fs.writeFile` overwrites; directory entries are modelled as association
  lists in creation order.
* JavaScript `\s` is modelled by `Char.isWhitespace`; strings are treated as
  their character lists (all inputs of interest are ASCII).
-/

/-! ## Data model (`src/features/documentation/models/document.ts`) -/

/-- Metadata block of a `Document` (title, description, lastUpdated, source). -/
structure DocMetadata where
  title : Option String
  description : Option String
  lastUpdated : Option String
  source : Option String
  deriving DecidableEq, Repr

/-- A scraped documentation unit (`Document` interface). -/
structure Document where
  id : String
  library : String
  version : String
  url : String
  content : String
  metadata : DocMetadata
  projectId : Option String
  createdAt : String
  updatedAt : String
  deriving DecidableEq, Repr

/-- Aggregate record per documentation library (`Library` interface). -/
structure Library where
  name : String
  versions : List String
  source : String
  lastScraped : String
  projectSpecific : Bool
  deriving DecidableEq, Repr

/-- One search hit (`DocumentSearchResult` interface): document, score,
highlights.  Scores are rationals in the model. -/
structure DocumentSearchResult where
  document : Document
  score : ℚ
  highlights : List String
  deriving DecidableEq, Repr

/-! ## String utilities

The JS methods `String.prototype.includes`, `indexOf`, `toLowerCase` used by
the storage layer, modelled over character lists. -/

/-- First index at which `q` occurs as a contiguous sublist of `s`
(JS `indexOf`), or `none`. -/
def listIndexOf (q : List Char) : List Char → Option Nat
  | [] => if q.isEmpty then some 0 else none
  | c :: rest =>
    if q.isPrefixOf (c :: rest) then some 0
    else (listIndexOf q rest).map (· + 1)

/-- JS `s.includes(q)` (case-sensitive substring test). -/
def strIncludes (s q : String) : Bool :=
  (listIndexOf q.toList s.toList).isSome

/-! ## Version resolver (`version-utils.ts`) -/

/-- Parsed `{major, minor, patch}` components. -/
structure SemVer where
  major : Nat
  minor : Nat
  patch : Nat
  deriving DecidableEq, Repr

/-- Leading decimal-digit run of a character list, and the remainder
(the regex atom `\d+` anchored at the start). -/
def takeDigits (l : List Char) : List Char × List Char :=
  (l.takeWhile Char.isDigit, l.dropWhile Char.isDigit)

/-- Numeric value of a digit list (JS `parseInt(_, 10)` on a digit string). -/
def digitsToNat (l : List Char) : Nat :=
  l.foldl (fun acc c => acc * 10 + (c.toNat - '0'.toNat)) 0

/-- The optional regex group `(?:\.(\d+))?` anchored at the start: a dot
followed by at least one digit.  Returns the digit group (if matched) and the
remainder. -/
def matchDotDigits (l : List Char) : Option (List Char) × List Char :=
  match l with
  | '.' :: rest =>
    match takeDigits rest with
    | ([], _) => (none, l)
    | (ds, rest') => (some ds, rest')
  | _ => (none, l)

/-- `parseVersion(version)`: `null` on the sentinels `"latest"`/`"*"`; strips
one leading `v`/`^`/`~`; then matches `^(\d+)(?:\.(\d+))?(?:\.(\d+))?`,
defaulting missing groups to 0. -/
def parseVersion (version : String) : Option SemVer :=
  if version = "latest" || version = "*" then none
  else
    let cleaned :=
      match version.toList with
      | c :: rest => if c = 'v' || c = '^' || c = '~' then rest else c :: rest
      | [] => []
    match takeDigits cleaned with
    | ([], _) => none
    | (d1, rest1) =>
      let (g2, rest2) := matchDotDigits rest1
      let (g3, _) := matchDotDigits rest2
      some { major := digitsToNat d1
             minor := (g2.map digitsToNat).getD 0
             patch := (g3.map digitsToNat).getD 0 }

/-- `isVersionCompatible(stored, requested)`. -/
def isVersionCompatible (stored requested : String) : Bool :=
  if requested = "latest" || requested = "*" then true
  else if stored = requested then true
  else
    match parseVersion stored, parseVersion requested with
    | some s, some r =>
      if ['^'].isPrefixOf requested.toList then
        s.major = r.major &&
          (s.minor > r.minor || (s.minor = r.minor && s.patch ≥ r.patch))
      else if ['~'].isPrefixOf requested.toList then
        s.major = r.major && s.minor = r.minor && s.patch ≥ r.patch
      else
        -- `requested.split('.').length` = number of '.' occurrences + 1
        let requestedParts := (requested.toList.count '.') + 1
        if requestedParts = 1 then s.major = r.major
        else if requestedParts = 2 then s.major = r.major && s.minor = r.minor
        else s.major = r.major && s.minor = r.minor && s.patch = r.patch
    | _, _ => false

/-- Lexicographic comparison of two parsed versions (the all-parsed branch of
`compareVersions`). -/
def cmpTriple (p1 p2 : SemVer) : Int :=
  if p1.major ≠ p2.major then (if p1.major > p2.major then 1 else -1)
  else if p1.minor ≠ p2.minor then (if p1.minor > p2.minor then 1 else -1)
  else if p1.patch ≠ p2.patch then (if p1.patch > p2.patch then 1 else -1)
  else 0

/-- `compareVersions(v1, v2)`: 1 / 0 / -1; unparseable input on either side
yields 0. -/
def compareVersions (v1 v2 : String) : Int :=
  match parseVersion v1, parseVersion v2 with
  | some p1, some p2 => cmpTriple p1 p2
  | _, _ => 0

/-- The `Array.prototype.reduce` in `findBestVersion`: keep the accumulator
unless the current element compares strictly greater. -/
def reduceHighest (l : List String) : Option String :=
  match l with
  | [] => none
  | h :: t =>
    some (t.foldl (fun highest current =>
      if compareVersions current highest > 0 then current else highest) h)

/-- `findBestVersion(available, requested)`. -/
def findBestVersion (available : List String) (requested : String) :
    Option String :=
  if available.length = 0 then none
  else if requested = "latest" || requested = "*" then
    reduceHighest available
  else
    let compatible := available.filter (fun v => isVersionCompatible v requested)
    if compatible.length = 0 then none
    else reduceHighest compatible

example : parseVersion "^18.0.0" = some ⟨18, 0, 0⟩ := by decide
example : parseVersion "latest" = none := by decide
example : parseVersion "1.2" = some ⟨1, 2, 0⟩ := by decide
example : isVersionCompatible "18.2.0" "^18.0.0" = true := by decide
example : isVersionCompatible "1.2.0" "~1.0.0" = false := by decide
example : findBestVersion ["1.0.0", "1.2.0", "2.0.0"] "^1.0.0" = some "1.2.0" := by decide
example : findBestVersion ["1.0.0", "1.2.0", "2.0.0"] "~1.0.0" = some "1.0.0" := by decide
example : findBestVersion ["1.0.0", "1.2.0", "2.0.0"] "1" = some "1.2.0" := by decide

/-! ## Properties of the version resolver -/

lemma cmpTriple_self (p : SemVer) : cmpTriple p p = 0 := by
  unfold cmpTriple; simp

lemma compareVersions_self (v : String) : compareVersions v v = 0 := by
  unfold compareVersions
  cases parseVersion v with
  | none => rfl
  | some p => simp [cmpTriple_self]

set_option maxHeartbeats 1000000 in
lemma cmpTriple_trans_le (pv pa pc : SemVer) :
    0 < cmpTriple pc pa → cmpTriple pv pa ≤ 0 → cmpTriple pv pc ≤ 0 := by
  unfold cmpTriple
  split_ifs <;> omega

/-- Quasi-transitivity of `compareVersions`: if `c` compares strictly above
`a`, anything not above `a` is not above `c`. -/
lemma compareVersions_trans_le (v a c : String)
    (h1 : 0 < compareVersions c a) (h2 : compareVersions v a ≤ 0) :
    compareVersions v c ≤ 0 := by
  unfold compareVersions at *
  cases hc : parseVersion c with
  | none => rw [hc] at h1; cases ha : parseVersion a <;> rw [ha] at h1 <;> simp at h1
  | some pc =>
    cases ha : parseVersion a with
    | none => rw [hc, ha] at h1; simp at h1
    | some pa =>
      rw [hc, ha] at h1
      cases hv : parseVersion v with
      | none => simp
      | some pv =>
        rw [hv, ha] at h2
        exact cmpTriple_trans_le pv pa pc h1 h2

/-- One step of the `reduce` in `findBestVersion`. -/
def highestStep (highest current : String) : String :=
  if compareVersions current highest > 0 then current else highest

lemma reduceHighest_eq_foldl (h : String) (t : List String) :
    reduceHighest (h :: t) = some (t.foldl highestStep h) := rfl

lemma foldl_highestStep_le (t : List String) :
    ∀ (a v : String), compareVersions v a ≤ 0 →
      compareVersions v (t.foldl highestStep a) ≤ 0 := by
  induction t with
  | nil => intro a v h; exact h
  | cons c t ih =>
    intro a v h
    show compareVersions v ((c :: t).foldl highestStep a) ≤ 0
    rw [List.foldl_cons]
    by_cases hc : compareVersions c a > 0
    · have hstep : highestStep a c = c := by simp [highestStep, hc]
      rw [hstep]
      exact ih c v (compareVersions_trans_le v a c hc h)
    · have hstep : highestStep a c = a := by simp [highestStep, hc]
      rw [hstep]
      exact ih a v h

lemma foldl_highestStep_mem (t : List String) :
    ∀ a : String, t.foldl highestStep a = a ∨ t.foldl highestStep a ∈ t := by
  induction t with
  | nil => intro a; left; rfl
  | cons c t ih =>
    intro a
    rw [List.foldl_cons]
    rcases ih (highestStep a c) with h | h
    · rw [h]
      unfold highestStep
      split
      · right; exact List.mem_cons_self c t
      · left; rfl
    · right; exact List.mem_cons_of_mem c h

lemma foldl_highestStep_max (t : List String) :
    ∀ a : String, ∀ v ∈ t, compareVersions v (t.foldl highestStep a) ≤ 0 := by
  induction t with
  | nil => intro a v hv; cases hv
  | cons c t ih =>
    intro a v hv
    rw [List.foldl_cons]
    rcases List.mem_cons.mp hv with rfl | hv
    · apply foldl_highestStep_le
      unfold highestStep
      split
      · rw [compareVersions_self]
      · omega
    · exact ih (highestStep a c) v hv

/-- The reference-kept maximum of a nonempty list: it is an element and no
element compares strictly above it. -/
lemma reduceHighest_spec (l : List String) (hne : l ≠ []) :
    ∃ r, reduceHighest l = some r ∧ r ∈ l ∧
      ∀ v ∈ l, compareVersions v r ≤ 0 := by
  cases l with
  | nil => exact absurd rfl hne
  | cons h t =>
    refine ⟨t.foldl highestStep h, reduceHighest_eq_foldl h t, ?_, ?_⟩
    · rcases foldl_highestStep_mem t h with heq | hmem
      · rw [heq]; exact List.mem_cons_self h t
      · exact List.mem_cons_of_mem h hmem
    · intro v hv
      rcases List.mem_cons.mp hv with rfl | hv
      · apply foldl_highestStep_le
        rw [compareVersions_self]
      · exact foldl_highestStep_max t h v hv

/-- C6: `findBestVersion(available, requested)` returns, for requested
`"latest"` or `"*"`, a maximum of `available` under `compareVersions`;
otherwise a maximum (under `compareVersions`) of the subset of `available`
accepted by `isVersionCompatible`, or `none` when that subset is empty.  In
particular, on `["1.0.0","1.2.0","2.0.0"]`, requesting `"^1.0.0"` yields
`"1.2.0"`, requesting `"~1.0.0"` yields `"1.0.0"`, and requesting `"1"`
yields `"1.2.0"` (not `"2.0.0"`). -/
theorem findBestVersion_spec (available : List String) (requested : String) :
    ((requested = "latest" ∨ requested = "*") → available ≠ [] →
      ∃ r, findBestVersion available requested = some r ∧ r ∈ available ∧
        ∀ v ∈ available, compareVersions v r ≤ 0)
    ∧ (requested ≠ "latest" → requested ≠ "*" →
        (available.filter (fun v => isVersionCompatible v requested) = [] →
          findBestVersion available requested = none)
        ∧ (available.filter (fun v => isVersionCompatible v requested) ≠ [] →
          ∃ r, findBestVersion available requested = some r ∧
            r ∈ available.filter (fun v => isVersionCompatible v requested) ∧
            ∀ v ∈ available.filter (fun v => isVersionCompatible v requested),
              compareVersions v r ≤ 0))
    ∧ findBestVersion ["1.0.0", "1.2.0", "2.0.0"] "^1.0.0" = some "1.2.0"
    ∧ findBestVersion ["1.0.0", "1.2.0", "2.0.0"] "~1.0.0" = some "1.0.0"
    ∧ findBestVersion ["1.0.0", "1.2.0", "2.0.0"] "1" = some "1.2.0" := by
  refine ⟨?_, ?_, by decide, by decide, by decide⟩
  · intro hreq hne
    have hlen : ¬ available.length = 0 := by
      simpa [List.length_eq_zero] using hne
    have hlatest : (requested = "latest" || requested = "*") = true := by
      rcases hreq with h | h <;> simp [h]
    have : findBestVersion available requested = reduceHighest available := by
      unfold findBestVersion
      rw [if_neg hlen, if_pos (by simpa using hlatest)]
    rw [this]
    exact reduceHighest_spec available hne
  · intro h1 h2
    have hlatest : ¬ (requested = "latest" || requested = "*") = true := by
      simp [h1, h2]
    constructor
    · intro hempty
      by_cases hlen : available.length = 0
      · simp [findBestVersion, hlen]
      · simp [findBestVersion, hlen, h1, h2, hempty]
    · intro hne
      have hlen : ¬ available.length = 0 := by
        intro hlen
        have : available = [] := List.length_eq_zero.mp hlen
        subst this
        exact hne rfl
      have hclen : ¬ (available.filter
          (fun v => isVersionCompatible v requested)).length = 0 := by
        simpa [List.length_eq_zero] using hne
      have heq : findBestVersion available requested =
          reduceHighest (available.filter (fun v => isVersionCompatible v requested)) := by
        unfold findBestVersion
        rw [if_neg hlen, if_neg (by simpa using hlatest), if_neg hclen]
      rw [heq]
      obtain ⟨r, hr, hmem, hmax⟩ :=
        reduceHighest_spec (available.filter (fun v => isVersionCompatible v requested)) hne
      exact ⟨r, hr, hmem, hmax⟩

/-- Witness for C6: the general characterization applied at a concrete input
(`"latest"` over a nonempty list). -/
theorem findBestVersion_spec_witness :
    ∃ r, findBestVersion ["1.0.0", "1.2.0", "2.0.0"] "latest" = some r ∧
      r ∈ ["1.0.0", "1.2.0", "2.0.0"] ∧
      ∀ v ∈ ["1.0.0", "1.2.0", "2.0.0"], compareVersions v r ≤ 0 :=
  (findBestVersion_spec ["1.0.0", "1.2.0", "2.0.0"] "latest").1
    (Or.inl rfl) (by decide)

/-! ## Single-tier document store (`doc-file-storage.ts`)

`DocFileStorage` keeps two on-disk hierarchies: `documents/<safeLib>/<safeVer>.json`
and `libraries/<safeName>.json`.  The model represents each hierarchy as an
association list in directory-entry order (`fs.writeFile` on an existing path
overwrites in place; a new path appends an entry). -/

/-- JS `s.toLowerCase()` (ASCII). -/
def strToLower (s : String) : String := String.mk (s.toList.map Char.toLower)

/-- The character class `[/\\:*?"<>|]` of `sanitizeFileName`. -/
def isHostileChar (c : Char) : Bool :=
  c = '/' || c = '\\' || c = ':' || c = '*' || c = '?' || c = '"' ||
  c = '<' || c = '>' || c = '|'

/-- Replace every maximal run of characters satisfying `p` by a single `'_'`
(the regex replaces `/\s+/g` and `/_{2,}/g`; collapsing runs of length 1 as
well is the identity for the underscore pass).  `prev` records whether the
previous character belonged to a run. -/
def collapseRuns (p : Char → Bool) : Bool → List Char → List Char
  | _, [] => []
  | prev, c :: rest =>
    if p c then
      if prev then collapseRuns p true rest
      else '_' :: collapseRuns p true rest
    else c :: collapseRuns p false rest

/-- `sanitizeFileName(input)`: hostile characters to `'_'`, whitespace runs to
`'_'`, underscore runs collapsed, leading/trailing underscores stripped,
truncated to 100 characters, defaulting to `"doc"` when empty. -/
def sanitizeFileName (input : String) : String :=
  let s1 := input.toList.map (fun c => if isHostileChar c then '_' else c)
  let s2 := collapseRuns (fun c => c.isWhitespace) false s1
  let s3 := collapseRuns (fun c => c = '_') false s2
  let s4 := ((s3.dropWhile (fun c => c = '_')).reverse.dropWhile
    (fun c => c = '_')).reverse
  let s5 := s4.take 100
  if s5.isEmpty then "doc" else String.mk s5

/-- State of one `DocFileStorage` tier. -/
structure DocStore where
  docs : List ((String × String) × Document)
  libs : List (String × Library)
  deriving DecidableEq, Repr

/-- The empty tier (fresh `initialize()`d storage). -/
def DocStore.empty : DocStore := ⟨[], []⟩

/-- Write a value at a key: overwrite the existing directory entry in place,
or append a new entry. -/
def setAssoc {α β : Type} [DecidableEq α] (k : α) (v : β) :
    List (α × β) → List (α × β)
  | [] => [(k, v)]
  | (k', v') :: rest =>
    if k' = k then (k, v) :: rest else (k', v') :: setAssoc k v rest

/-- Read the value at a key. -/
def getAssoc {α β : Type} [DecidableEq α] (k : α) (l : List (α × β)) :
    Option β :=
  (l.find? (fun p => p.1 = k)).map (·.2)

/-- Remove the entry at a key (`fs.unlink`). -/
def eraseAssocKey {α β : Type} [DecidableEq α] (k : α) :
    List (α × β) → List (α × β)
  | [] => []
  | (k', v') :: rest =>
    if k' = k then rest else (k', v') :: eraseAssocKey k rest

/-- `getLibrary(name)`: read `libraries/<safeName>.json`. -/
def docGetLibrary (st : DocStore) (name : String) : Option Library :=
  getAssoc (sanitizeFileName name) st.libs

/-- `getLibraries()`: every parseable record in the `libraries` directory. -/
def docGetLibraries (st : DocStore) : List Library := st.libs.map (·.2)

/-- `updateLibraryInfo(name, version)` (private helper of `saveDocument`):
create or extend the library record; `now` models `new Date().toISOString()`. -/
def updateLibraryInfo (st : DocStore) (name version now : String) : DocStore :=
  let library := (docGetLibrary st name).getD
    { name := name, versions := [], source := "unknown",
      lastScraped := now, projectSpecific := true }
  let library :=
    if library.versions.contains version then library
    else { library with versions := library.versions ++ [version] }
  let library := { library with lastScraped := now }
  { st with libs := setAssoc (sanitizeFileName name) library st.libs }

/-- `getDocument(library, version)`: read
`documents/<safeLibrary>/<safeVersion>.json`, `null` when absent. -/
def docGetDocument (st : DocStore) (library version : String) :
    Option Document :=
  getAssoc (sanitizeFileName library, sanitizeFileName version) st.docs

/-- `saveDocument(doc)` (happy path): write the document file, then update the
library record; returns the saved document. -/
def docSaveDocument (st : DocStore) (doc : Document) (now : String) :
    DocStore × Document :=
  let key := (sanitizeFileName doc.library, sanitizeFileName doc.version)
  let st1 := { st with docs := setAssoc key doc st.docs }
  (updateLibraryInfo st1 doc.library doc.version now, doc)

/-- `saveDocument(doc)` with its fallible write: `fs.mkdir`/`fs.writeFile`
may reject, and `saveDocument` has no catch, so the rejection propagates.
`writeFails` is the oracle for the underlying filesystem. -/
def docSaveDocumentE (writeFails : Bool) (st : DocStore) (doc : Document)
    (now : String) : Except String (DocStore × Document) :=
  if writeFails then .error "write failed" else .ok (docSaveDocument st doc now)

/-- `findDocumentFileById(id)`: scan directory entries for the first document
whose `id` field matches. -/
def findDocumentFileById (st : DocStore) (docId : String) :
    Option ((String × String) × Document) :=
  st.docs.find? (fun e => e.2.id = docId)

/-- `deleteDocument(id)`: unlink the single document file; `false` when no
file holds that id.  The `libraries` hierarchy is not touched. -/
def docDeleteDocument (st : DocStore) (docId : String) : DocStore × Bool :=
  match findDocumentFileById st docId with
  | none => (st, false)
  | some entry => ({ st with docs := eraseAssocKey entry.1 st.docs }, true)

/-- A `Partial<Document>` as passed to `updateDocument`: present fields
override (the source then forces `id` and `updatedAt`, so those are omitted
here). -/
structure DocumentUpdates where
  library : Option String := none
  version : Option String := none
  url : Option String := none
  content : Option String := none
  metadata : Option DocMetadata := none
  projectId : Option (Option String) := none
  createdAt : Option String := none
  deriving DecidableEq, Repr

/-- The spread `{...existingDoc, ...updates, id: existingDoc.id, updatedAt: now}`. -/
def applyUpdates (d : Document) (u : DocumentUpdates) (now : String) :
    Document :=
  { id := d.id
    library := u.library.getD d.library
    version := u.version.getD d.version
    url := u.url.getD d.url
    content := u.content.getD d.content
    metadata := u.metadata.getD d.metadata
    projectId := u.projectId.getD d.projectId
    createdAt := u.createdAt.getD d.createdAt
    updatedAt := now }

/-- The move test of `updateDocument`:
`(updates.library && updates.library !== existingDoc.library) ||
 (updates.version && updates.version !== existingDoc.version)`
(JS truthiness: an empty string is falsy). -/
def updateMoves (d : Document) (u : DocumentUpdates) : Bool :=
  (match u.library with
   | some l => !l.toList.isEmpty && l ≠ d.library
   | none => false) ||
  (match u.version with
   | some v => !v.toList.isEmpty && v ≠ d.version
   | none => false)

/-- `updateDocument(id, updates)`: merge fields, refresh `updatedAt`; when the
merge changes (library, version), unlink the old file and `saveDocument` the
merged document (which also updates the new library record); otherwise
overwrite in place. -/
def docUpdateDocument (st : DocStore) (docId : String) (u : DocumentUpdates)
    (now : String) : DocStore × Option Document :=
  match findDocumentFileById st docId with
  | none => (st, none)
  | some (key, existingDoc) =>
    let updatedDoc := applyUpdates existingDoc u now
    if updateMoves existingDoc u then
      let st1 := { st with docs := eraseAssocKey key st.docs }
      ((docSaveDocument st1 updatedDoc now).1, some updatedDoc)
    else
      ({ st with docs := setAssoc key updatedDoc st.docs }, some updatedDoc)

/-- `deleteLibrary(name)`: unlink the library record and remove the library's
whole `documents` directory; every per-step error is swallowed, so the source
returns `true`. -/
def docDeleteLibrary (st : DocStore) (name : String) : DocStore × Bool :=
  let safe := sanitizeFileName name
  (⟨st.docs.filter (fun e => !(e.1.1 = safe)),
    eraseAssocKey safe st.libs⟩, true)

example : sanitizeFileName "react" = "react" := by decide
example : sanitizeFileName "18.2.0" = "18.2.0" := by decide
example : sanitizeFileName "^18.0.0" = "^18.0.0" := by decide
example : sanitizeFileName "a/b  c" = "a_b_c" := by decide
example : sanitizeFileName "__" = "doc" := by decide

/-! ## Built-in single-tier scorer (`searchDocuments` of `doc-file-storage.ts`) -/

/-- Descending-score order used by `results.sort((a, b) => b.score - a.score)`. -/
def scoreGE (a b : DocumentSearchResult) : Prop := b.score ≤ a.score

instance : DecidableRel scoreGE :=
  fun a b => inferInstanceAs (Decidable (b.score ≤ a.score))

instance : IsTotal DocumentSearchResult scoreGE :=
  ⟨fun a b => le_total b.score a.score⟩

instance : IsTrans DocumentSearchResult scoreGE :=
  ⟨fun _ _ _ h1 h2 => le_trans h2 h1⟩

/-- JS `Array.prototype.sort` with comparator `(a, b) => b.score - a.score`:
a stable sort into descending score order. -/
def sortByScoreDesc (l : List DocumentSearchResult) :
    List DocumentSearchResult :=
  l.insertionSort scoreGE

/-- The per-document body of the store's `searchDocuments` loop: the five
substring tests, the accumulated score (0.4 title + 0.2 description +
0.2 library + 0.2 content; a URL match gates inclusion but adds no weight),
and the single ±50-character excerpt around the first content match. -/
def docSearchEntry (queryLower : String) (doc : Document) :
    Option DocumentSearchResult :=
  let titleMatch := match doc.metadata.title with
    | some t => strIncludes (strToLower t) queryLower
    | none => false
  let descMatch := match doc.metadata.description with
    | some d => strIncludes (strToLower d) queryLower
    | none => false
  let contentMatch := strIncludes (strToLower doc.content) queryLower
  let libraryMatch := strIncludes (strToLower doc.library) queryLower
  let urlMatch := strIncludes (strToLower doc.url) queryLower
  if titleMatch || descMatch || contentMatch || libraryMatch || urlMatch then
    let score : ℚ :=
      (if titleMatch then 4/10 else 0) + (if descMatch then 2/10 else 0) +
      (if libraryMatch then 2/10 else 0) + (if contentMatch then 2/10 else 0)
    let highlights : List String :=
      if contentMatch then
        let index :=
          (listIndexOf queryLower.toList (strToLower doc.content).toList).getD 0
        let start := index - 50
        let stop := min doc.content.toList.length
          (index + queryLower.toList.length + 50)
        ["..." ++ String.mk ((doc.content.toList.drop start).take (stop - start))
          ++ "..."]
      else []
    some { document := doc, score := score, highlights := highlights }
  else none

/-- `searchDocuments(query, limit)` of one tier: score every stored document
(in directory-entry order), sort descending by score, truncate to `limit`. -/
def docSearchDocuments (st : DocStore) (query : String) (limit : Nat) :
    List DocumentSearchResult :=
  let queryLower := strToLower query
  let results := st.docs.filterMap (fun e => docSearchEntry queryLower e.2)
  (sortByScoreDesc results).take limit

/-! ## Dual-tier cache coordinator (`dual-storage.ts`) -/

/-- State of a `DualDocStorage`: a project tier and a global tier. -/
structure DualStore where
  project : DocStore
  globalTier : DocStore
  deriving DecidableEq, Repr

/-- `copyToProjectStorage(doc)` (private): skip when the project tier already
has (library, version); otherwise save a copy with `projectId: 'current'`
into the project tier.  The save has no catch here, so a write rejection
propagates (`pwf` is the oracle for project-tier writes). -/
def copyToProjectStorageE (pwf : Bool) (st : DualStore) (doc : Document)
    (now : String) : Except String DualStore :=
  match docGetDocument st.project doc.library doc.version with
  | some _ => .ok st
  | none =>
    match docSaveDocumentE pwf st.project { doc with projectId := some "current" } now with
    | .ok (p, _) => .ok { st with project := p }
    | .error e => .error e

/-- Step 2 (and, on the global tier, step 4) of the coordinator's
`getDocument`: best compatible version via the version resolver, provided the
tier lists the library at all. -/
def bestCompatibleInTier (tier : DocStore) (library version : String) :
    Option Document :=
  match (docGetLibraries tier).find? (fun lib => lib.name = library) with
  | some tierLibrary =>
    if tierLibrary.versions.length > 0 then
      match findBestVersion tierLibrary.versions version with
      | some bestVersion => docGetDocument tier library bestVersion
      | none => none
    else none
  | none => none

/-- The coordinator's `getDocument(library, version)`: project exact, project
compatible, global exact (with copy-on-read), global compatible (with
copy-on-read), else null.  Exceptions from the copy's save propagate — there
is no try/catch on this path. -/
def dualGetDocumentE (pwf : Bool) (st : DualStore) (library version now : String) :
    Except String (DualStore × Option Document) :=
  match docGetDocument st.project library version with
  | some projectDoc => .ok (st, some projectDoc)
  | none =>
    match bestCompatibleInTier st.project library version with
    | some projectDoc => .ok (st, some projectDoc)
    | none =>
      match docGetDocument st.globalTier library version with
      | some globalDoc =>
        (copyToProjectStorageE pwf st globalDoc now).map
          (fun st1 => (st1, some globalDoc))
      | none =>
        match bestCompatibleInTier st.globalTier library version with
        | some globalDoc =>
          (copyToProjectStorageE pwf st globalDoc now).map
            (fun st1 => (st1, some globalDoc))
        | none => .ok (st, none)

/-- The coordinator's `getDocument` on a filesystem whose writes succeed. -/
def dualGetDocument (st : DualStore) (library version now : String) :
    Except String (DualStore × Option Document) :=
  dualGetDocumentE false st library version now

/-- The merge in the coordinator's `searchDocuments`: keep every project
result; append each global result whose document id is not among the project
ids, at 0.9 × its score; re-sort descending; truncate. -/
def mergeSearchResults (projectResults globalResults : List DocumentSearchResult)
    (limit : Nat) : List DocumentSearchResult :=
  let projectIds := projectResults.map (fun r => r.document.id)
  let merged := projectResults ++
    (globalResults.filter (fun g => !projectIds.contains g.document.id)).map
      (fun g => { g with score := g.score * (9/10) })
  (sortByScoreDesc merged).take limit

/-- The coordinator's `searchDocuments(query, limit)`. -/
def dualSearchDocuments (st : DualStore) (query : String) (limit : Nat) :
    List DocumentSearchResult :=
  mergeSearchResults (docSearchDocuments st.project query limit)
    (docSearchDocuments st.globalTier query limit) limit

/-- One (library, version) step of `syncWithGlobal`: a found project document
is pushed into the global tier; a failed push increments `errors` and does not
abort the batch (`gwf` is the oracle for global-tier writes). -/
def syncStep (gwf : Bool) (proj : DocStore) (now : String)
    (acc : DocStore × Nat × Nat) (libName version : String) :
    DocStore × Nat × Nat :=
  match docGetDocument proj libName version with
  | some projectDoc =>
    match docSaveDocumentE gwf acc.1 projectDoc now with
    | .ok (g, _) => (g, acc.2.1 + 1, acc.2.2)
    | .error _ => (acc.1, acc.2.1, acc.2.2 + 1)
  | none => acc

/-- `syncWithGlobal()`: walk every project-tier library record and each of its
listed versions, pushing every found document into the global tier; returns
the new state with `{synced, errors}`. -/
def syncWithGlobal (gwf : Bool) (st : DualStore) (now : String) :
    DualStore × Nat × Nat :=
  let res := (docGetLibraries st.project).foldl
    (fun acc lib => lib.versions.foldl
      (fun acc v => syncStep gwf st.project now acc lib.name v) acc)
    (st.globalTier, 0, 0)
  ({ st with globalTier := res.1 }, res.2.1, res.2.2)

/-! ## The `remove_docs` tool (`src/tools/documentation/docs.ts`) -/

/-- The tool's `storage` selector (`'project' | 'global' | 'both'`,
default `'project'`). -/
inductive StorageSel where
  | project
  | glob
  | both
  deriving DecidableEq, Repr

/-- An MCP tool result: the single text content block, and the `isError`
flag (absent in the source means `false`). -/
structure ToolResponse where
  text : String
  isError : Bool
  deriving DecidableEq, Repr

/-- The remove-specific-version branch for one tier: look the document up by
(library, version), delete it by id when found, report the count and
message. -/
def removeVersionFromTier (tier : DocStore) (library v msgTier : String) :
    DocStore × Nat × List String :=
  match docGetDocument tier library v with
  | some doc =>
    let (tier1, success) := docDeleteDocument tier doc.id
    if success then
      (tier1, 1, ["Removed " ++ library ++ " v" ++ v ++ " from " ++ msgTier ++ " storage"])
    else (tier1, 0, [])
  | none => (tier, 0, [])

/-- The remove-entire-library branch for one tier. -/
def removeLibraryFromTier (tier : DocStore) (library msgTier : String) :
    DocStore × Nat × List String :=
  let (tier1, success) := docDeleteLibrary tier library
  if success then
    (tier1, 1, ["Removed all versions of " ++ library ++ " from " ++ msgTier ++ " storage"])
  else (tier1, 0, [])

/-- The `remove_docs` tool handler: without `confirm` it answers
`'Please set confirm to true to delete documentation'` with `isError: true`
before touching either tier; with `confirm` it deletes per the `version` and
`storage` arguments (JS truthiness: an empty-string `version` selects the
whole-library branch). -/
def removeDocs (st : DualStore) (library : String) (version : Option String)
    (storage : StorageSel) (confirm : Bool) : DualStore × ToolResponse :=
  if !confirm then
    (st, ⟨"Please set confirm to true to delete documentation", true⟩)
  else
    let versionTruthy := match version with
      | some v => !v.toList.isEmpty
      | none => false
    let inProject := storage = StorageSel.project || storage = StorageSel.both
    let inGlobal := storage = StorageSel.glob || storage = StorageSel.both
    let (st1, count, results) :=
      if versionTruthy then
        let v := version.getD ""
        let (p1, cp, rp) :=
          if inProject then removeVersionFromTier st.project library v "project"
          else (st.project, 0, [])
        let (g1, cg, rg) :=
          if inGlobal then removeVersionFromTier st.globalTier library v "global"
          else (st.globalTier, 0, [])
        (DualStore.mk p1 g1, cp + cg, rp ++ rg)
      else
        let (p1, cp, rp) :=
          if inProject then removeLibraryFromTier st.project library "project"
          else (st.project, 0, [])
        let (g1, cg, rg) :=
          if inGlobal then removeLibraryFromTier st.globalTier library "global"
          else (st.globalTier, 0, [])
        (DualStore.mk p1 g1, cp + cg, rp ++ rg)
    if count = 0 then
      (st1, ⟨"No documentation found to remove", false⟩)
    else
      (st1, ⟨String.intercalate "\n" results, false⟩)

/-! ## Concrete fixtures -/

/-- A document literal with the given addressing fields. -/
def mkDoc (docId library version url content : String)
    (title description : Option String) : Document :=
  { id := docId, library := library, version := version, url := url,
    content := content,
    metadata := { title := title, description := description,
                  lastUpdated := none, source := some "web" },
    projectId := none, createdAt := "t0", updatedAt := "t0" }

def exDoc182 : Document :=
  mkDoc "doc-182" "react" "18.2.0" "https://react.dev/18.2" "react docs"
    (some "React") none

def exDoc180 : Document :=
  mkDoc "doc-180" "react" "18.0.0" "https://react.dev/18.0" "react docs"
    (some "React") none

def exDocReact : Document :=
  mkDoc "doc-react-1" "react" "1.0.0" "https://react.dev" "hello"
    (some "Intro") none

/-- A tier holding exactly `exDocReact`, built through `saveDocument`. -/
def exStoreOne : DocStore := (docSaveDocument DocStore.empty exDocReact "t1").1

/-! ## C9 — the `remove_docs` confirmation gate -/

/-- Counterexample to C9: with `confirm` unset, the `remove_docs` handler
answers with `isError: true` — an error-flagged response, not the non-error
"cancelled" response the claim asserts. -/
theorem removeDocs_no_confirm_is_error :
    (removeDocs ⟨DocStore.empty, DocStore.empty⟩ "react" none
      StorageSel.project false).2.isError = true := rfl

/-- C9 (amended): for every library/version/tier argument combination, calling
`remove_docs` without the confirmation flag performs no deletion (both tiers
are returned untouched) and answers the fixed refusal message — but that
response carries `isError: true`, so it is an error-style refusal rather than
a non-error "cancelled" response. -/
theorem removeDocs_no_confirm_is_noop :
    ∀ (st : DualStore) (library : String) (version : Option String)
      (storage : StorageSel),
      removeDocs st library version storage false =
        (st, ⟨"Please set confirm to true to delete documentation", true⟩) :=
  fun _ _ _ _ => rfl

/-! ## C3 — the library version-set invariant -/

/-- Counterexample to C3: save one document, delete it by id; the delete
succeeds and the document is gone, yet its version `"1.0.0"` still sits in
the `react` library record's version set. -/
theorem deleteDocument_keeps_version_counterexample :
    (docDeleteDocument exStoreOne "doc-react-1").2 = true ∧
    docGetDocument (docDeleteDocument exStoreOne "doc-react-1").1
      "react" "1.0.0" = none ∧
    (docGetLibrary (docDeleteDocument exStoreOne "doc-react-1").1 "react").map
      Library.versions = some ["1.0.0"] := by
  refine ⟨rfl, rfl, rfl⟩

/-- C3 (amended): `deleteDocument` never touches the `libraries` hierarchy at
all, so a deleted document's version remains in its library's version set;
and an `updateDocument` that changes the version relocates the document and
registers the new version, but leaves the stale old version in the record
(concretely: after updating `exDocReact` to version `"2.0.0"`, the record
lists `["1.0.0", "2.0.0"]` while no document exists at `("react", "1.0.0")`). -/
theorem deleteDocument_leaves_library_records :
    (∀ (st : DocStore) (docId : String),
      (docDeleteDocument st docId).1.libs = st.libs) ∧
    ((docUpdateDocument exStoreOne "doc-react-1"
        { version := some "2.0.0" } "t2").1 |> fun st2 =>
      docGetDocument st2 "react" "1.0.0" = none ∧
      (docGetDocument st2 "react" "2.0.0").map Document.version = some "2.0.0" ∧
      (docGetLibrary st2 "react").map Library.versions =
        some ["1.0.0", "2.0.0"]) := by
  constructor
  · intro st docId
    unfold docDeleteDocument
    cases h : findDocumentFileById st docId <;> simp
  · exact ⟨rfl, rfl, rfl⟩

/-! ## C2 — `syncWithGlobal` is not idempotent in its count -/

/-- A coordinator whose project tier holds exactly one document and whose
global tier is empty. -/
def exDualSync : DualStore := ⟨exStoreOne, DocStore.empty⟩

/-- Counterexample to C2: after one successful `syncWithGlobal()` (which
reports `synced = 1`), a second run with no intervening writes again reports
`synced = 1`, not `0`. -/
theorem syncWithGlobal_second_run_counterexample :
    (syncWithGlobal false exDualSync "t2").2.1 = 1 ∧
    (syncWithGlobal false (syncWithGlobal false exDualSync "t2").1 "t3").2.1
      = 1 := by
  refine ⟨rfl, rfl⟩

/-- Number of (library, version) pairs listed by a tier's library records for
which the tier actually holds a document — the number of pushes `syncWithGlobal`
performs. -/
def syncPushCount (proj : DocStore) : Nat :=
  ((docGetLibraries proj).map (fun lib =>
    lib.versions.countP (fun v => (docGetDocument proj lib.name v).isSome))).sum

lemma syncStep_ok_components (proj : DocStore) (now : String)
    (acc : DocStore × Nat × Nat) (libName v : String) :
    (syncStep false proj now acc libName v).2.1 =
      acc.2.1 + (if (docGetDocument proj libName v).isSome then 1 else 0) := by
  unfold syncStep docSaveDocumentE
  cases h : docGetDocument proj libName v <;> simp [h]

lemma syncFold_versions_synced (proj : DocStore) (now libName : String)
    (vers : List String) :
    ∀ (acc : DocStore × Nat × Nat),
      (vers.foldl (fun acc v => syncStep false proj now acc libName v) acc).2.1
        = acc.2.1 +
          vers.countP (fun v => (docGetDocument proj libName v).isSome) := by
  induction vers with
  | nil => intro acc; simp
  | cons v vs ih =>
    intro acc
    rw [List.foldl_cons, ih, syncStep_ok_components, List.countP_cons]
    cases h : docGetDocument proj libName v <;> (simp [h]; try omega)

lemma syncFold_synced (proj : DocStore) (now : String) (libs : List Library) :
    ∀ (acc : DocStore × Nat × Nat),
      (libs.foldl (fun acc lib => lib.versions.foldl
          (fun acc v => syncStep false proj now acc lib.name v) acc) acc).2.1
        = acc.2.1 + ((libs.map (fun lib => lib.versions.countP
            (fun v => (docGetDocument proj lib.name v).isSome))).sum) := by
  induction libs with
  | nil => intro acc; simp
  | cons lib libs ih =>
    intro acc
    rw [List.foldl_cons, ih, syncFold_versions_synced]
    simp [Nat.add_assoc]

/-- The reported `synced` count of a failure-free `syncWithGlobal` run is
exactly the number of project-tier pushes — independent of the global tier. -/
lemma syncWithGlobal_synced_eq (st : DualStore) (now : String) :
    (syncWithGlobal false st now).2.1 = syncPushCount st.project := by
  unfold syncWithGlobal syncPushCount
  rw [syncFold_synced]
  simp

/-- `syncWithGlobal` never writes to the project tier. -/
lemma syncWithGlobal_project_eq (gwf : Bool) (st : DualStore) (now : String) :
    (syncWithGlobal gwf st now).1.project = st.project := rfl

/-- C2 (amended): `syncWithGlobal()` is not idempotent in its reported count —
it unconditionally re-pushes every project-tier document on every run, so a
second failure-free run with no intervening writes reports the same `synced`
count as the first (the number of project documents), which is zero only when
the project tier has nothing to push. -/
theorem syncWithGlobal_second_run_same_count :
    ∀ (st : DualStore) (now now2 : String),
      (syncWithGlobal false (syncWithGlobal false st now).1 now2).2.1 =
        (syncWithGlobal false st now).2.1 ∧
      (syncWithGlobal false st now).2.1 = syncPushCount st.project := by
  intro st now now2
  constructor
  · rw [syncWithGlobal_synced_eq, syncWithGlobal_synced_eq,
      syncWithGlobal_project_eq]
  · exact syncWithGlobal_synced_eq st now

/-! ## C1 — copy-on-read failure propagation -/

/-- A coordinator with `("react", "18.2.0")` in the global tier only. -/
def exDualGlobal182 : DualStore :=
  ⟨DocStore.empty, (docSaveDocument DocStore.empty exDoc182 "t1").1⟩

/-- C1 (code behavior at the failing input): the global tier resolves
`("react", "18.2.0")` exactly — with a healthy filesystem the read returns the
document — but when the project-tier write rejects during the copy-on-read
promotion, the whole `getDocument` call rejects instead of returning the
resolved global document: the copy failure fails the read. -/
theorem copy_failure_fails_read :
    dualGetDocumentE true exDualGlobal182 "react" "18.2.0" "t2" =
      .error "write failed" ∧
    (dualGetDocumentE false exDualGlobal182 "react" "18.2.0" "t2").map
        (fun p => p.2) = .ok (some exDoc182) := by
  refine ⟨rfl, rfl⟩

/-! ## C8 — compatible-version fallback with promotion -/

/-- A coordinator with `("react","18.2.0")` and `("react","18.0.0")` in the
global tier only and an empty project tier. -/
def exDualC8 : DualStore :=
  ⟨DocStore.empty,
   (docSaveDocument (docSaveDocument DocStore.empty exDoc182 "t1").1
     exDoc180 "t1").1⟩

/-- C8: with the project tier empty and the global tier holding `18.2.0` and
`18.0.0` of `react`, `getDocument("react", "^18.0.0")` resolves the best
compatible global version `18.2.0`, returns that document, and leaves a copy
(marked `projectId: 'current'`) at `("react", "18.2.0")` in the project
tier. -/
theorem coordinator_fallback_promotes :
    (dualGetDocument exDualC8 "react" "^18.0.0" "t2").map (fun p => p.2) =
      .ok (some exDoc182) ∧
    (dualGetDocument exDualC8 "react" "^18.0.0" "t2").map
        (fun p => docGetDocument p.1.project "react" "18.2.0") =
      .ok (some { exDoc182 with projectId := some "current" }) := by
  refine ⟨rfl, rfl⟩

/-! ## C4 — the built-in scorer's ceiling -/

set_option maxHeartbeats 1600000 in
lemma docSearchEntry_score_le (doc : Document) (queryLower : String)
    (r : DocumentSearchResult) (h : docSearchEntry queryLower doc = some r) :
    r.score ≤ 1 := by
  unfold docSearchEntry at h
  dsimp only at h
  split_ifs at h
  all_goals
    first
      | exact Option.noConfusion h
      | (rw [Option.some_inj] at h; subst h; norm_num)

/-- Counterexample to C4: no document/query pair makes the store's built-in
scorer exceed 1.0 — the four weights sum to exactly 1.0
(0.4 + 0.2 + 0.2 + 0.2), so an accumulated score above 1.0 is impossible. -/
theorem builtin_score_never_exceeds_one :
    ¬ ∃ (doc : Document) (queryLower : String) (r : DocumentSearchResult),
      docSearchEntry queryLower doc = some r ∧ 1 < r.score := by
  rintro ⟨doc, queryLower, r, h, hs⟩
  exact absurd hs (not_lt.mpr (docSearchEntry_score_le doc queryLower r h))

/-- A document matching a one-character query in title, description, library
name and content at once. -/
def exDocAllMatch : Document :=
  mkDoc "doc-all" "x" "1.0.0" "https://example.com" "x" (some "x") (some "x")

/-- C4 (amended): the built-in scorer's accumulated score is bounded by
exactly 1.0 — `score ≤ 1` for every returned result — and the bound is tight:
a document matching the query in title, description, library name and content
at once scores exactly 1.0 (= 0.4 + 0.2 + 0.2 + 0.2).  Scores above 1.0 are
not possible by construction. -/
theorem builtin_score_max_exactly_one :
    (∀ (doc : Document) (queryLower : String) (r : DocumentSearchResult),
      docSearchEntry queryLower doc = some r → r.score ≤ 1) ∧
    ∃ r, docSearchEntry "x" exDocAllMatch = some r ∧ r.score = 1 := by
  constructor
  · exact docSearchEntry_score_le
  · refine ⟨{ document := exDocAllMatch,
              score := (4 : ℚ)/10 + 2/10 + 2/10 + 2/10,
              highlights := ["...x..."] }, ?_, by norm_num⟩
    rfl

/-- Witness for C4 (amended), discharging the hypothesis at the concrete
all-match document: its concrete search entry scores at most 1. -/
theorem builtin_score_max_exactly_one_witness :
    ({ document := exDocAllMatch,
       score := (4 : ℚ)/10 + 2/10 + 2/10 + 2/10,
       highlights := ["...x..."] } : DocumentSearchResult).score ≤ 1 :=
  builtin_score_max_exactly_one.1 exDocAllMatch "x" _ rfl

/-! ## C10 — a URL-only match is included at score 0 -/

/-- A document whose only case-insensitive overlap with the query `"zzz"` is
in its source URL. -/
def exDocUrlOnly : Document :=
  mkDoc "doc-url" "react" "1.0.0" "https://zzz.dev/docs" "hello"
    (some "Intro") none

/-- A tier holding exactly `exDocUrlOnly`. -/
def exStoreUrlOnly : DocStore :=
  (docSaveDocument DocStore.empty exDocUrlOnly "t1").1

lemma docSearchEntry_url_only (doc : Document) (queryLower : String)
    (htitle : (doc.metadata.title.map
      (fun t => strIncludes (strToLower t) queryLower)).getD false = false)
    (hdesc : (doc.metadata.description.map
      (fun d => strIncludes (strToLower d) queryLower)).getD false = false)
    (hcontent : strIncludes (strToLower doc.content) queryLower = false)
    (hlib : strIncludes (strToLower doc.library) queryLower = false)
    (hurl : strIncludes (strToLower doc.url) queryLower = true) :
    docSearchEntry queryLower doc = some ⟨doc, 0, []⟩ := by
  have h1 : (match doc.metadata.title with
      | some t => strIncludes (strToLower t) queryLower
      | none => false) = false := by
    cases ht : doc.metadata.title
    · rfl
    · simpa [ht] using htitle
  have h2 : (match doc.metadata.description with
      | some d => strIncludes (strToLower d) queryLower
      | none => false) = false := by
    cases hd : doc.metadata.description
    · rfl
    · simpa [hd] using hdesc
  simp only [docSearchEntry, h1, h2, hcontent, hlib, hurl]
  norm_num

/-- C10: a document whose only case-insensitive substring match with the
query occurs in its source URL is included in `searchDocuments`' results, but
with score exactly 0 — `urlMatch` gates inclusion yet contributes no weight —
so returned results are not guaranteed to have positive scores.  Concretely,
searching `"zzz"` over a tier holding only `exDocUrlOnly` (URL
`https://zzz.dev/docs`) returns that document at score 0 with no
highlights. -/
theorem url_only_match_scores_zero :
    (∀ (doc : Document) (queryLower : String),
      (doc.metadata.title.map
        (fun t => strIncludes (strToLower t) queryLower)).getD false = false →
      (doc.metadata.description.map
        (fun d => strIncludes (strToLower d) queryLower)).getD false = false →
      strIncludes (strToLower doc.content) queryLower = false →
      strIncludes (strToLower doc.library) queryLower = false →
      strIncludes (strToLower doc.url) queryLower = true →
      docSearchEntry queryLower doc = some ⟨doc, 0, []⟩) ∧
    docSearchDocuments exStoreUrlOnly "zzz" 10 = [⟨exDocUrlOnly, 0, []⟩] := by
  refine ⟨docSearchEntry_url_only, ?_⟩
  have hentry : docSearchEntry (strToLower "zzz") exDocUrlOnly =
      some ⟨exDocUrlOnly, 0, []⟩ :=
    docSearchEntry_url_only _ _ (by decide) (by decide) (by decide) (by decide)
      (by decide)
  have hdocs : exStoreUrlOnly.docs = [(("react", "1.0.0"), exDocUrlOnly)] := rfl
  show (sortByScoreDesc (exStoreUrlOnly.docs.filterMap
      (fun e => docSearchEntry (strToLower "zzz") e.2))).take 10 = _
  rw [hdocs]
  simp [List.filterMap_cons, hentry, sortByScoreDesc]
  refine ⟨?_, by decide⟩
  rw [if_neg (by decide), if_neg (by decide), if_neg (by decide),
    if_neg (by decide)]
  norm_num

/-- Witness for C10: the general statement applied at the concrete
URL-only-match document and query. -/
theorem url_only_match_scores_zero_witness :
    docSearchEntry "zzz" exDocUrlOnly = some ⟨exDocUrlOnly, 0, []⟩ :=
  url_only_match_scores_zero.1 exDocUrlOnly "zzz" (by decide) (by decide)
    (by decide) (by decide) (by decide)

/-! ## C7 — dual-tier search merge semantics -/

/-- The global-only results, discounted by 0.9, as built by the merge loop. -/
def discountedGlobalOnly (projectResults globalResults : List DocumentSearchResult) :
    List DocumentSearchResult :=
  (globalResults.filter (fun g =>
    !(projectResults.map (fun r => r.document.id)).contains g.document.id)).map
    (fun g => { g with score := g.score * (9/10) })

/-- The sorted union before truncation (`merged.sort(...)` in the source). -/
def mergedAll (projectResults globalResults : List DocumentSearchResult) :
    List DocumentSearchResult :=
  sortByScoreDesc (projectResults ++ discountedGlobalOnly projectResults globalResults)

lemma mergeSearchResults_eq_take (pr gr : List DocumentSearchResult)
    (limit : Nat) :
    mergeSearchResults pr gr limit = (mergedAll pr gr).take limit := rfl

lemma countP_map_id_eq {α β : Type} [DecidableEq β] (l : List α) (f : α → β)
    (b : β) : l.countP (fun x => f x = b) = (l.map f).count b := by
  induction l with
  | nil => rfl
  | cons a l ih => simp [List.countP_cons, List.count_cons, ih]

lemma discountedGlobalOnly_id_not_project (pr gr : List DocumentSearchResult)
    (r : DocumentSearchResult) (hr : r ∈ discountedGlobalOnly pr gr) :
    r.document.id ∉ pr.map (fun x => x.document.id) ∧
    ∃ g ∈ gr, r = { g with score := g.score * (9/10) } := by
  unfold discountedGlobalOnly at hr
  obtain ⟨g, hg, rfl⟩ := List.mem_map.mp hr
  have hfil := List.mem_filter.mp hg
  refine ⟨?_, g, hfil.1, rfl⟩
  have h2 := hfil.2
  simp only [Bool.not_eq_true'] at h2
  simpa using h2

/-- C7: the coordinator's merge.  Under the premise that the project tier's
results carry pairwise-distinct document ids: (1) a document id returned by
both tiers appears exactly once in the sorted union, and every union entry
with that id is the project-tier entry itself, score undiscounted (hence the
truncated output holds it at most once, at the project score); (2) every
merged entry whose id is not among the project results is a global result
with its score multiplied by exactly 0.9; (3) the output is sorted by
descending score; (4) the output length is at most `limit`. -/
theorem dual_search_merge_spec (pr gr : List DocumentSearchResult)
    (limit : Nat)
    (hnd : (pr.map (fun r => r.document.id)).Nodup) :
    (∀ p ∈ pr, ∀ g ∈ gr, p.document.id = g.document.id →
      (mergedAll pr gr).countP
          (fun r => r.document.id = p.document.id) = 1 ∧
      (mergeSearchResults pr gr limit).countP
          (fun r => r.document.id = p.document.id) ≤ 1 ∧
      (∀ r ∈ mergedAll pr gr, r.document.id = p.document.id → r = p))
    ∧ (∀ r ∈ mergeSearchResults pr gr limit,
        r.document.id ∉ pr.map (fun x => x.document.id) →
        ∃ g ∈ gr, r = { g with score := g.score * (9/10) })
    ∧ (mergeSearchResults pr gr limit).Sorted scoreGE
    ∧ (mergeSearchResults pr gr limit).length ≤ limit := by
  have hperm : List.Perm (mergedAll pr gr)
      (pr ++ discountedGlobalOnly pr gr) :=
    List.perm_insertionSort scoreGE _
  refine ⟨?_, ?_, ?_, ?_⟩
  · intro p hp g hg hid
    have hcount : (mergedAll pr gr).countP
        (fun r => r.document.id = p.document.id) = 1 := by
      rw [hperm.countP_eq, List.countP_append]
      have h1 : pr.countP (fun r => r.document.id = p.document.id) = 1 := by
        rw [countP_map_id_eq pr (fun r => r.document.id) p.document.id]
        exact List.count_eq_one_of_mem hnd
          (List.mem_map_of_mem (fun r => r.document.id) hp)
      have h2 : (discountedGlobalOnly pr gr).countP
          (fun r => r.document.id = p.document.id) = 0 := by
        rw [List.countP_eq_zero]
        intro a ha
        have := (discountedGlobalOnly_id_not_project pr gr a ha).1
        simp only [decide_eq_true_eq]
        intro heq
        exact this (heq ▸ List.mem_map_of_mem (fun r => r.document.id) hp)
      omega
    refine ⟨hcount, ?_, ?_⟩
    · rw [mergeSearchResults_eq_take]
      have hle := (List.take_sublist limit (mergedAll pr gr)).countP_le
        (p := fun r => r.document.id = p.document.id)
      omega
    · intro r hr hrid
      have hr' : r ∈ pr ++ discountedGlobalOnly pr gr := hperm.mem_iff.mp hr
      rcases List.mem_append.mp hr' with hrp | hrg
      · exact List.inj_on_of_nodup_map hnd hrp hp hrid
      · exact absurd (hrid ▸ List.mem_map_of_mem (fun x => x.document.id) hp)
          (discountedGlobalOnly_id_not_project pr gr r hrg).1
  · intro r hr hnotproj
    rw [mergeSearchResults_eq_take] at hr
    have hr1 : r ∈ mergedAll pr gr := List.mem_of_mem_take hr
    have hr' : r ∈ pr ++ discountedGlobalOnly pr gr := hperm.mem_iff.mp hr1
    rcases List.mem_append.mp hr' with hrp | hrg
    · exact absurd (List.mem_map_of_mem (fun x => x.document.id) hrp) hnotproj
    · exact (discountedGlobalOnly_id_not_project pr gr r hrg).2
  · rw [mergeSearchResults_eq_take]
    exact List.Pairwise.sublist (List.take_sublist _ _)
      (List.sorted_insertionSort scoreGE _)
  · rw [mergeSearchResults_eq_take]
    exact List.length_take_le _ _

/-- Concrete search results for the C7 witness: the same `exDoc182` hit in
both tiers at different scores, plus a global-only `exDoc180` hit. -/
def exResProject : DocumentSearchResult := ⟨exDoc182, 1/2, []⟩

def exResGlobalDup : DocumentSearchResult := ⟨exDoc182, 3/4, []⟩

def exResGlobalOnly : DocumentSearchResult := ⟨exDoc180, 1, []⟩

/-- Witness for C7: the merge theorem applied at concrete tier results (its
distinct-project-ids premise discharged by computation); the duplicated
`doc-182` appears exactly once in the sorted union. -/
theorem dual_search_merge_spec_witness :
    (mergedAll [exResProject] [exResGlobalDup, exResGlobalOnly]).countP
      (fun r => r.document.id = exResProject.document.id) = 1 :=
  ((dual_search_merge_spec [exResProject] [exResGlobalDup, exResGlobalOnly]
      10 (by decide)).1 exResProject (by simp) exResGlobalDup (by simp)
      rfl).1

/-! ## Relevance search engine (`text-search.ts`)

The regex-based extraction helpers are modelled as character-list scanners
with the same match semantics (leftmost match, greedy/lazy quantifiers and
word boundaries as in the source patterns; ASCII inputs). -/

/-- JS `\w` (`[A-Za-z0-9_]`). -/
def isWordChar (c : Char) : Bool := c.isAlphanum || c = '_'

lemma length_dropWhile_le (p : Char → Bool) (l : List Char) :
    (l.dropWhile p).length ≤ l.length :=
  (List.dropWhile_sublist p).length_le

/-- JS `text.split(/\s+/)`: pieces between maximal whitespace runs, with an
empty leading piece when the text starts with whitespace and an empty
trailing piece when it ends with one. -/
def splitWSAux (cur : List Char) : List Char → List String
  | [] => [String.mk cur.reverse]
  | c :: rest =>
    if c.isWhitespace then
      String.mk cur.reverse :: splitWSAux [] (rest.dropWhile Char.isWhitespace)
    else splitWSAux (c :: cur) rest
termination_by l => l.length
decreasing_by
  · have := length_dropWhile_le Char.isWhitespace rest
    simp only [List.length_cons]
    omega
  · simp

/-- `tokenize(text)`: split on whitespace, keep terms longer than 2, strip
characters outside `[a-z0-9]`. -/
def tokenize (text : String) : List String :=
  ((splitWSAux [] text.toList).filter (fun term => term.length > 2)).map
    (fun term => String.mk (term.toList.filter
      (fun c => ('a' ≤ c && c ≤ 'z') || ('0' ≤ c && c ≤ '9'))))

/-- `calculateTermScore(text, terms)`: the fraction of terms occurring as
substrings of the text (0 for an empty term list). -/
def calculateTermScore (text : String) (terms : List String) : ℚ :=
  if terms.length = 0 then 0
  else (terms.countP (fun term => strIncludes text term) : ℚ) / terms.length

/-- Split a character list on a separator character. -/
def splitCharAux (sep : Char) (cur : List Char) : List Char → List String
  | [] => [String.mk cur.reverse]
  | c :: rest =>
    if c = sep then String.mk cur.reverse :: splitCharAux sep [] rest
    else splitCharAux sep (c :: cur) rest

/-- One line against the multiline regex `^#{1,6}\s+(.+)$`: 1–6 leading
hashes, at least one whitespace character, then a nonempty captured group
(the greedy `\s+` gives one character back when the remainder of the line is
all whitespace). -/
def headerOfLine (line : String) : Option String :=
  let l := line.toList
  let n := (l.takeWhile (fun c => c = '#')).length
  if 1 ≤ n ∧ n ≤ 6 then
    let rest := l.drop n
    match rest with
    | [] => none
    | c :: _ =>
      if c.isWhitespace then
        let afterWS := rest.dropWhile Char.isWhitespace
        if afterWS.isEmpty then
          match rest with
          | _ :: _ :: _ => some (String.mk (rest.drop (rest.length - 1)))
          | _ => none
        else some (String.mk afterWS)
      else none
  else none

/-- `extractHeaders(content)`: every line matching the header pattern. -/
def extractHeaders (content : String) : List String :=
  (splitCharAux '\n' [] content.toList).filterMap headerOfLine

/-- `calculateHeaderScore(headers, queryLower, queryTerms)`: full-query
substring hits score 1, otherwise half the term score; averaged and capped
at 1. -/
def calculateHeaderScore (headers : List String) (queryLower : String)
    (queryTerms : List String) : ℚ :=
  if headers.length = 0 then 0
  else
    let total := (headers.map (fun header =>
      let headerLower := strToLower header
      if strIncludes headerLower queryLower then (1 : ℚ)
      else calculateTermScore headerLower queryTerms * (1/2))).sum
    min 1 (total / headers.length)

/-- Split at the first fence `` ``` ``: the part before it and the remainder
after it. -/
def splitAtFence : List Char → Option (List Char × List Char)
  | [] => none
  | c :: rest =>
    if c = '`' ∧ rest.take 2 = ['`', '`'] then some ([], rest.drop 2)
    else (splitAtFence rest).map (fun p => (c :: p.1, p.2))

lemma splitAtFence_shrinks :
    ∀ (s before after : List Char), splitAtFence s = some (before, after) →
      after.length + 3 ≤ s.length := by
  intro s
  induction s with
  | nil => intro b a h; exact Option.noConfusion h
  | cons c rest ih =>
    intro b a h
    unfold splitAtFence at h
    split_ifs at h with hf
    · rw [Option.some_inj, Prod.mk.injEq] at h
      have hlen : rest.length ≥ 2 := by
        have := congrArg List.length hf.2
        simp only [List.length_take, List.length_cons, List.length_nil] at this
        omega
      have ha : a = rest.drop 2 := h.2.symm
      subst ha
      simp only [List.length_drop, List.length_cons]
      omega
    · cases hsf : splitAtFence rest with
      | none => rw [hsf] at h; exact Option.noConfusion h
      | some p =>
        rw [hsf, Option.map_some', Option.some_inj, Prod.mk.injEq] at h
        have := ih p.1 p.2 (by rw [hsf])
        have ha : a = p.2 := h.2.symm
        subst ha
        simp only [List.length_cons]
        omega

/-- The global pass of `/```[\s\S]*?```/g`: each match runs from a fence to
the earliest following fence (lazy body), scanning resumes after the match. -/
def scanFenced (s : List Char) : List String :=
  match h1 : splitAtFence s with
  | none => []
  | some (_, afterOpen) =>
    match h2 : splitAtFence afterOpen with
    | none => []
    | some (mid, afterClose) =>
      ("```" ++ String.mk mid ++ "```") :: scanFenced afterClose
termination_by s.length
decreasing_by
  have l1 := splitAtFence_shrinks s _ afterOpen h1
  have l2 := splitAtFence_shrinks afterOpen mid afterClose h2
  omega

/-- The global pass of ``/`([^`]+)`/g``: a backtick, a nonempty greedy run of
non-backticks, a closing backtick; scanning resumes after the closing
backtick. -/
def scanInline : List Char → List String
  | [] => []
  | c :: rest =>
    if c = '`' then
      let w := rest.takeWhile (fun x => x ≠ '`')
      if w.isEmpty then scanInline rest
      else
        match hm : rest.drop w.length with
        | '`' :: rest2 => String.mk w :: scanInline rest2
        | _ => []
    else scanInline rest
termination_by l => l.length
decreasing_by
  · simp
  · have hlen := congrArg List.length hm
    simp only [List.length_drop, List.length_cons] at hlen
    simp only [List.length_cons]
    omega
  · simp

/-- `extractCodeBlocks(content)`: all fenced blocks (with their fences), then
all inline snippets (without their backticks). -/
def extractCodeBlocks (content : String) : List String :=
  scanFenced content.toList ++ scanInline content.toList

/-- `calculateCodeScore(codeBlocks, queryLower, ...)`: the fraction of blocks
containing the full query (its `queryTerms` parameter is unused in the
source). -/
def calculateCodeScore (codeBlocks : List String) (queryLower : String) : ℚ :=
  if codeBlocks.length = 0 then 0
  else (codeBlocks.countP (fun b => strIncludes (strToLower b) queryLower) : ℚ)
    / codeBlocks.length

/-- Case-insensitive prefix match of a (lowercase) keyword; returns the
remainder on success. -/
def kwPrefixCI : List Char → List Char → Option (List Char)
  | [], rest => some rest
  | _, [] => none
  | k :: ks, c :: cs => if c.toLower = k then kwPrefixCI ks cs else none

lemma kwPrefixCI_length :
    ∀ (kw l r : List Char), kwPrefixCI kw l = some r →
      r.length + kw.length = l.length := by
  intro kw
  induction kw with
  | nil =>
    intro l r h
    simp only [kwPrefixCI, Option.some_inj] at h
    subst h
    simp
  | cons k ks ih =>
    intro l r h
    cases l with
    | nil => exact Option.noConfusion h
    | cons c cs =>
      simp only [kwPrefixCI] at h
      split_ifs at h
      have := ih cs r h
      simp only [List.length_cons]
      omega

/-- The alternation `(?:function|method|api)` at one position: the three
keywords begin with distinct letters, so at most one can match there. -/
def tryKeyword (l : List Char) : Option (List Char) :=
  match kwPrefixCI ['f','u','n','c','t','i','o','n'] l with
  | some r => some r
  | none =>
    match kwPrefixCI ['m','e','t','h','o','d'] l with
    | some r => some r
    | none => kwPrefixCI ['a','p','i'] l

lemma tryKeyword_shrinks (l r : List Char) (h : tryKeyword l = some r) :
    r.length + 3 ≤ l.length := by
  unfold tryKeyword at h
  cases h1 : kwPrefixCI ['f','u','n','c','t','i','o','n'] l with
  | some x =>
    rw [h1] at h
    rw [Option.some_inj] at h
    subst h
    have := kwPrefixCI_length _ l x h1
    simp only [List.length_cons, List.length_nil] at this
    omega
  | none =>
    rw [h1] at h
    cases h2 : kwPrefixCI ['m','e','t','h','o','d'] l with
    | some x =>
      rw [h2] at h
      rw [Option.some_inj] at h
      subst h
      have := kwPrefixCI_length _ l x h2
      simp only [List.length_cons, List.length_nil] at this
      omega
    | none =>
      rw [h2] at h
      have := kwPrefixCI_length _ l r h
      simp only [List.length_cons, List.length_nil] at this
      omega

/-- Case-sensitive prefix match; returns the remainder on success. -/
def kwPrefixCS (kw l : List Char) : Option (List Char) :=
  if kw.isPrefixOf l then some (l.drop kw.length) else none

/-- The global pass of `/\b(\w+)\s*\(/g`: a word (at a word boundary)
followed by optional whitespace and `(`; captures the word.  On failure the
scan skips past the word (no boundary occurs inside it); on success it
resumes after the `(`. -/
def scanCalls : Bool → List Char → List String
  | _, [] => []
  | prevWord, c :: rest =>
    if isWordChar c && !prevWord then
      let w := c :: rest.takeWhile isWordChar
      match hm : (rest.dropWhile isWordChar).dropWhile Char.isWhitespace with
      | '(' :: rest2 => String.mk w :: scanCalls false rest2
      | _ => scanCalls true (rest.dropWhile isWordChar)
    else scanCalls (isWordChar c) rest
termination_by _ l => l.length
decreasing_by
  · have h1 := length_dropWhile_le isWordChar rest
    have h2 := length_dropWhile_le Char.isWhitespace (rest.dropWhile isWordChar)
    have hlen := congrArg List.length hm
    simp only [List.length_cons] at hlen ⊢
    omega
  · have h1 := length_dropWhile_le isWordChar rest
    simp only [List.length_cons]
    omega
  · simp

/-- The global pass of `/\.(\w+)\s*\(/g`: a dot, a word, optional
whitespace, `(`; captures the word. -/
def scanMethodCalls : List Char → List String
  | [] => []
  | ['.'] => []
  | '.' :: d :: rest =>
    if isWordChar d then
      let w := (d :: rest).takeWhile isWordChar
      match hm : ((d :: rest).dropWhile isWordChar).dropWhile Char.isWhitespace
        with
      | '(' :: rest2 => String.mk w :: scanMethodCalls rest2
      | _ => scanMethodCalls ((d :: rest).dropWhile isWordChar)
    else scanMethodCalls (d :: rest)
  | _ :: rest => scanMethodCalls rest
termination_by l => l.length
decreasing_by
  · have h1 := length_dropWhile_le isWordChar (d :: rest)
    have h2 := length_dropWhile_le Char.isWhitespace
      ((d :: rest).dropWhile isWordChar)
    have hlen := congrArg List.length hm
    simp only [List.length_cons] at h1 hlen ⊢
    omega
  · have h1 := length_dropWhile_le isWordChar (d :: rest)
    simp only [List.length_cons] at h1 ⊢
    omega
  · simp
  · simp

/-- The global pass of `/\b(?:function|method|api)\s+(\w+)/gi`: one of the
keywords at a word boundary, at least one whitespace character, then a
captured word.  On failure the scan skips the whole word at the boundary. -/
def scanKeywordDefs : Bool → List Char → List String
  | _, [] => []
  | prevWord, c :: rest =>
    if hw : isWordChar c && !prevWord then
      match htk : tryKeyword (c :: rest) with
      | some (d :: afterTail) =>
        if d.isWhitespace then
          match hws : (d :: afterTail).dropWhile Char.isWhitespace with
          | e :: wsTail =>
            if isWordChar e then
              String.mk ((e :: wsTail).takeWhile isWordChar) ::
                scanKeywordDefs true ((e :: wsTail).dropWhile isWordChar)
            else scanKeywordDefs true ((c :: rest).dropWhile isWordChar)
          | [] => scanKeywordDefs true ((c :: rest).dropWhile isWordChar)
        else scanKeywordDefs true ((c :: rest).dropWhile isWordChar)
      | some [] => scanKeywordDefs true ((c :: rest).dropWhile isWordChar)
      | none => scanKeywordDefs true ((c :: rest).dropWhile isWordChar)
    else scanKeywordDefs (isWordChar c) rest
termination_by _ l => l.length
decreasing_by
  · have ht := tryKeyword_shrinks _ _ htk
    have h2 := length_dropWhile_le Char.isWhitespace (d :: afterTail)
    rw [hws] at h2
    have h3 := length_dropWhile_le isWordChar (e :: wsTail)
    simp only [List.length_cons] at ht h2 h3 ⊢
    omega
  · have hc : isWordChar c = true := (Bool.and_eq_true _ _ |>.mp hw).1
    rw [List.dropWhile_cons, if_pos hc]
    have := length_dropWhile_le isWordChar rest
    have hlen : (c :: rest).length = rest.length + 1 := by simp
    omega
  · have hc : isWordChar c = true := (Bool.and_eq_true _ _ |>.mp hw).1
    rw [List.dropWhile_cons, if_pos hc]
    have := length_dropWhile_le isWordChar rest
    have hlen : (c :: rest).length = rest.length + 1 := by simp
    omega
  · have hc : isWordChar c = true := (Bool.and_eq_true _ _ |>.mp hw).1
    rw [List.dropWhile_cons, if_pos hc]
    have := length_dropWhile_le isWordChar rest
    have hlen : (c :: rest).length = rest.length + 1 := by simp
    omega
  · have hc : isWordChar c = true := (Bool.and_eq_true _ _ |>.mp hw).1
    rw [List.dropWhile_cons, if_pos hc]
    have := length_dropWhile_le isWordChar rest
    have hlen : (c :: rest).length = rest.length + 1 := by simp
    omega
  · have hc : isWordChar c = true := (Bool.and_eq_true _ _ |>.mp hw).1
    rw [List.dropWhile_cons, if_pos hc]
    have := length_dropWhile_le isWordChar rest
    have hlen : (c :: rest).length = rest.length + 1 := by simp
    omega
  · simp

lemma kwPrefixCS_length_le (kw l r : List Char) (h : kwPrefixCS kw l = some r) :
    r.length ≤ l.length := by
  unfold kwPrefixCS at h
  split_ifs at h
  rw [Option.some_inj] at h
  subst h
  simp [List.length_drop]

/-- The global pass of `/\b(\w+):\s*function/g` (case-sensitive): a word at a
boundary, a colon, optional whitespace, the literal `function`; captures the
word. -/
def scanObjMethods : Bool → List Char → List String
  | _, [] => []
  | prevWord, c :: rest =>
    if hw : isWordChar c && !prevWord then
      let w := c :: rest.takeWhile isWordChar
      match hm : rest.dropWhile isWordChar with
      | ':' :: rest2 =>
        match hkw : kwPrefixCS ['f','u','n','c','t','i','o','n']
            (rest2.dropWhile Char.isWhitespace) with
        | some rest3 => String.mk w :: scanObjMethods true rest3
        | none => scanObjMethods true (':' :: rest2)
      | _ => scanObjMethods true (rest.dropWhile isWordChar)
    else scanObjMethods (isWordChar c) rest
termination_by _ l => l.length
decreasing_by
  · have h1 := kwPrefixCS_length_le _ _ _ hkw
    have h2 := length_dropWhile_le Char.isWhitespace rest2
    have h3 := congrArg List.length hm
    have h4 := length_dropWhile_le isWordChar rest
    simp only [List.length_cons] at h3 ⊢
    omega
  · have h3 := congrArg List.length hm
    have h4 := length_dropWhile_le isWordChar rest
    simp only [List.length_cons] at h3 ⊢
    omega
  · have h4 := length_dropWhile_le isWordChar rest
    have hlen : (c :: rest).length = rest.length + 1 := by simp
    omega
  · simp

/-- The JS `Set` of captured tokens, in insertion order. -/
def dedupKeepOrder (l : List String) : List String :=
  l.foldl (fun acc w => if acc.contains w then acc else acc ++ [w]) []

/-- `extractApiReferences(content)`: the four patterns' captures in pattern
order, deduplicated. -/
def extractApiReferences (content : String) : List String :=
  dedupKeepOrder (scanCalls false content.toList ++
    scanMethodCalls content.toList ++ scanKeywordDefs false content.toList ++
    scanObjMethods false content.toList)

/-- `calculateApiScore(apiRefs, queryLower, ...)`: tokens matching in either
containment direction, over one tenth of the token count (at least 1), capped
at 1 (its `queryTerms` parameter is unused in the source). -/
def calculateApiScore (apiRefs : List String) (queryLower : String) : ℚ :=
  if apiRefs.length = 0 then 0
  else
    let matchCount := apiRefs.countP (fun ref =>
      strIncludes (strToLower ref) queryLower ||
      strIncludes queryLower (strToLower ref))
    min 1 ((matchCount : ℚ) / max 1 ((apiRefs.length : ℚ) / 10))

/-- The engine's weight vector (`SearchWeights`). -/
structure SearchWeights where
  title : ℚ
  description : ℚ
  library : ℚ
  content : ℚ
  headers : ℚ
  codeBlocks : ℚ
  apiReferences : ℚ
  deriving DecidableEq, Repr

/-- `DEFAULT_WEIGHTS`: 0.3 / 0.15 / 0.15 / 0.1 / 0.15 / 0.1 / 0.05. -/
def DEFAULT_WEIGHTS : SearchWeights :=
  { title := 3/10, description := 15/100, library := 15/100, content := 1/10,
    headers := 15/100, codeBlocks := 1/10, apiReferences := 5/100 }

/-- `calculateScore(doc, queryLower, queryTerms)` of `DocumentSearchEngine`:
the seven weighted signals (title ×2 / description ×1.5 / library ×2 on a
full-query substring hit, term-fraction fallback otherwise; header, code and
API sub-scores; content last), summed and clamped from above at 1.0. -/
def calculateScore (w : SearchWeights) (doc : Document) (queryLower : String)
    (queryTerms : List String) : ℚ :=
  let titlePart :=
    match doc.metadata.title with
    | some t =>
      let titleLower := strToLower t
      if strIncludes titleLower queryLower then w.title * 2
      else w.title * calculateTermScore titleLower queryTerms
    | none => 0
  let descPart :=
    match doc.metadata.description with
    | some d =>
      let descLower := strToLower d
      if strIncludes descLower queryLower then w.description * (3/2)
      else w.description * calculateTermScore descLower queryTerms
    | none => 0
  let libPart :=
    let libraryLower := strToLower doc.library
    if strIncludes libraryLower queryLower then w.library * 2
    else w.library * calculateTermScore libraryLower queryTerms
  let headerPart := w.headers *
    calculateHeaderScore (extractHeaders doc.content) queryLower queryTerms
  let codePart := w.codeBlocks *
    calculateCodeScore (extractCodeBlocks doc.content) queryLower
  let apiPart := w.apiReferences *
    calculateApiScore (extractApiReferences doc.content) queryLower
  let contentPart :=
    let contentLower := strToLower doc.content
    if strIncludes contentLower queryLower then w.content
    else w.content * calculateTermScore contentLower queryTerms
  min 1 (titlePart + descPart + libPart + headerPart + codePart + apiPart +
    contentPart)

/-! ## C5 — the relevance engine's score range -/

lemma calculateTermScore_nonneg (text : String) (terms : List String) :
    0 ≤ calculateTermScore text terms := by
  unfold calculateTermScore
  split_ifs
  · exact le_refl 0
  · exact div_nonneg (Nat.cast_nonneg _) (Nat.cast_nonneg _)

lemma calculateHeaderScore_nonneg (headers : List String)
    (queryLower : String) (queryTerms : List String) :
    0 ≤ calculateHeaderScore headers queryLower queryTerms := by
  unfold calculateHeaderScore
  split_ifs
  · exact le_refl 0
  · dsimp only
    refine le_min (by norm_num) (div_nonneg ?_ (Nat.cast_nonneg _))
    refine List.sum_nonneg ?_
    intro x hx
    obtain ⟨h, _, rfl⟩ := List.mem_map.mp hx
    exact ite_nonneg (by norm_num)
      (mul_nonneg (calculateTermScore_nonneg _ _) (by norm_num))

lemma calculateCodeScore_nonneg (codeBlocks : List String)
    (queryLower : String) : 0 ≤ calculateCodeScore codeBlocks queryLower := by
  unfold calculateCodeScore
  split_ifs
  · exact le_refl 0
  · exact div_nonneg (Nat.cast_nonneg _) (Nat.cast_nonneg _)

lemma calculateApiScore_nonneg (apiRefs : List String)
    (queryLower : String) : 0 ≤ calculateApiScore apiRefs queryLower := by
  unfold calculateApiScore
  split_ifs
  · exact le_refl 0
  · dsimp only
    refine le_min (by norm_num) (div_nonneg (Nat.cast_nonneg _) ?_)
    exact le_trans (by norm_num : (0 : ℚ) ≤ 1) (le_max_left _ _)

lemma calculateScore_mem_unit (w : SearchWeights) (ht : 0 ≤ w.title)
    (hd : 0 ≤ w.description) (hl : 0 ≤ w.library) (hc : 0 ≤ w.content)
    (hh : 0 ≤ w.headers) (hcb : 0 ≤ w.codeBlocks) (ha : 0 ≤ w.apiReferences)
    (doc : Document) (queryLower : String) (queryTerms : List String) :
    0 ≤ calculateScore w doc queryLower queryTerms ∧
    calculateScore w doc queryLower queryTerms ≤ 1 := by
  constructor
  · unfold calculateScore
    dsimp only
    refine le_min (by norm_num) ?_
    refine add_nonneg (add_nonneg (add_nonneg (add_nonneg (add_nonneg
      (add_nonneg ?_ ?_) ?_) ?_) ?_) ?_) ?_
    · cases doc.metadata.title with
      | none => exact le_refl 0
      | some t =>
        exact ite_nonneg (mul_nonneg ht (by norm_num))
          (mul_nonneg ht (calculateTermScore_nonneg _ _))
    · cases doc.metadata.description with
      | none => exact le_refl 0
      | some d =>
        exact ite_nonneg (mul_nonneg hd (by norm_num))
          (mul_nonneg hd (calculateTermScore_nonneg _ _))
    · exact ite_nonneg (mul_nonneg hl (by norm_num))
        (mul_nonneg hl (calculateTermScore_nonneg _ _))
    · exact mul_nonneg hh (calculateHeaderScore_nonneg _ _ _)
    · exact mul_nonneg hcb (calculateCodeScore_nonneg _ _)
    · exact mul_nonneg ha (calculateApiScore_nonneg _ _)
    · exact ite_nonneg hc (mul_nonneg hc (calculateTermScore_nonneg _ _))
  · unfold calculateScore
    dsimp only
    exact min_le_left _ _

/-- C5: for every document and every query, the relevance search engine's
computed score lies in `[0, 1]`: with the engine's `DEFAULT_WEIGHTS` every
weighted signal contribution is non-negative, and the final sum is clamped by
`Math.min(1, score)` so it never exceeds 1.0. -/
theorem relevance_score_in_unit_interval :
    ∀ (doc : Document) (query : String),
      0 ≤ calculateScore DEFAULT_WEIGHTS doc (strToLower query)
          (tokenize (strToLower query)) ∧
      calculateScore DEFAULT_WEIGHTS doc (strToLower query)
          (tokenize (strToLower query)) ≤ 1 :=
  fun doc query =>
    calculateScore_mem_unit DEFAULT_WEIGHTS (by norm_num [DEFAULT_WEIGHTS])
      (by norm_num [DEFAULT_WEIGHTS]) (by norm_num [DEFAULT_WEIGHTS])
      (by norm_num [DEFAULT_WEIGHTS]) (by norm_num [DEFAULT_WEIGHTS])
      (by norm_num [DEFAULT_WEIGHTS]) (by norm_num [DEFAULT_WEIGHTS])
      doc (strToLower query) (tokenize (strToLower query))
